import Mathlib

/-!
Verification of the FileTranslaterScript repository: a web application that
translates Chinese text in PDF catalogues to English while preserving layout.

The repository sources under verification are the Next.js upload route
(src/app/api/upload/route.ts), the client drop handler (src/unnamed/part_000),
and the Next.js configuration (src/unnamed/part_001).  The layout-preserving
translation core (geometry extraction, script classification, translation
batching, box fitting, reconstruction) is specified by the design document but
its implementation is not among the sources; those components are modelled
here from the specification text, and each such definition is marked
`Modelled from the spec:` in its doc comment.

Strings are embedded as lists of characters (for the route and client code)
or lists of Unicode scalar values as naturals (for the translation core).
-/

/-! ## String primitives from the TypeScript sources -/

/-- JavaScript toLowerCase restricted to the ASCII letters, which is all the
route and client code rely on: A..Z map to a..z, all else is unchanged. -/
def lowerAscii (c : Char) : Char :=
  if 65 ≤ c.toNat ∧ c.toNat ≤ 90 then Char.ofNat (c.toNat + 32) else c

/-- Embeds file.name.toLowerCase() from route.ts line 16 / part_000 line 28. -/
def strToLower (s : List Char) : List Char := s.map lowerAscii

/-- Embeds file.name.toLowerCase().endsWith(".pdf"): the case-insensitive
PDF-extension acceptance test shared by route.ts and the client. -/
def isPdfName (s : List Char) : Bool :=
  List.isSuffixOf (String.toList ".pdf") (strToLower s)

/-- Does pat occur as a contiguous substring?  Used to characterise the
behaviour of JavaScript String.replace with a string pattern. -/
def containsSub (pat : List Char) : List Char → Bool
  | [] => List.isPrefixOf pat []
  | c :: cs => List.isPrefixOf pat (c :: cs) || containsSub pat cs

/-- Embeds JavaScript s.replace(pat, ""): removes the first occurrence of pat
(case-sensitive, literal) and leaves the string unchanged when pat does not
occur. -/
def replaceFirst (pat : List Char) : List Char → List Char
  | [] => []
  | c :: cs =>
    if List.isPrefixOf pat (c :: cs) then List.drop pat.length (c :: cs)
    else c :: replaceFirst pat cs

/-- Embeds the download name computation of part_000 lines 79 and 86:
const originalName = file.name.replace(".pdf", "");
fileName: originalName + "_ENGLISH.pdf". -/
def downloadFileName (name : List Char) : List Char :=
  replaceFirst (String.toList ".pdf") name ++ String.toList "_ENGLISH.pdf"

/-! ## The upload route POST handler (src/app/api/upload/route.ts) -/

/-- A thrown JavaScript value: either an Error instance carrying a message or
some other thrown value, mirroring the instanceof test in the catch block. -/
inductive JsException where
  | errorInstance (message : String)
  | nonError
deriving DecidableEq

/-- Embeds the catch-block expression
error instanceof Error ? error.message : "Upload failed". -/
def exnMessage : JsException → String
  | JsException.errorInstance m => m
  | JsException.nonError => "Upload failed"

/-- The outcome of awaiting put(file.name, file, ...): the blob store either
returns a blob with a url or throws. -/
inductive PutOutcome where
  | success (url : String)
  | failure (exn : JsException)
deriving DecidableEq

/-- A response body produced by NextResponse.json in the route: either the
error payload or the success payload with url and filename fields. -/
inductive ResponseBody where
  | jsonError (error : String)
  | jsonOk (url : String) (filename : String)
deriving DecidableEq

/-- An HTTP response as the route produces it: a status and a JSON body. -/
structure UploadResponse where
  status : Nat
  body : ResponseBody
deriving DecidableEq

/-- Is the body the structured error payload with an error string field? -/
def isErrorPayload : ResponseBody → Bool
  | ResponseBody.jsonError _ => true
  | ResponseBody.jsonOk _ _ => false

/-- Embeds POST of src/app/api/upload/route.ts lines 7-36.  The request is
abstracted to the result of awaiting request.formData(): it either throws, or
yields no "file" entry, or yields a file with a name; the blob store call is
abstracted to its outcome.  The Bool records whether put was invoked.
Branches in source order: missing file gives 400, non-.pdf name gives 400,
then put is awaited and its blob url returned with status 200; any throw is
caught and mapped to status 500 with the error message. -/
def uploadPOST (req : Except JsException (Option String)) (put : PutOutcome) :
    UploadResponse × Bool :=
  match req with
  | Except.error e => (⟨500, ResponseBody.jsonError (exnMessage e)⟩, false)
  | Except.ok none => (⟨400, ResponseBody.jsonError "No file provided"⟩, false)
  | Except.ok (some name) =>
    if isPdfName name.toList then
      match put with
      | PutOutcome.success url => (⟨200, ResponseBody.jsonOk url name⟩, true)
      | PutOutcome.failure e => (⟨500, ResponseBody.jsonError (exnMessage e)⟩, true)
    else (⟨400, ResponseBody.jsonError "File must be a PDF"⟩, false)

/-! ## Script Classifier -/

/-- Modelled from the spec: the Script Classifier implementation is not among
the sources.  The repository README fixes the default translatable range:
"Only translates Chinese characters (Unicode range u4e00-u9fff)", i.e. the
CJK Unified Ideographs block.  A scalar value is Translatable exactly when it
lies in that range. -/
def isTranslatable (c : Nat) : Bool :=
  decide (0x4E00 ≤ c) && decide (c ≤ 0x9FFF)

/-- The source-script set as the claim words it: CJK Unified Ideographs plus
CJK-specific punctuation (the CJK Symbols and Punctuation block
U+3000-U+303F).  Stated from the claim, to be compared with isTranslatable. -/
def claimSourceScript (c : Nat) : Bool :=
  (decide (0x4E00 ≤ c) && decide (c ≤ 0x9FFF)) ||
    (decide (0x3000 ≤ c) && decide (c ≤ 0x303F))

/-- The class of a segment: translatable source script or pass-through. -/
inductive SegKind where
  | translatable
  | passthrough
deriving DecidableEq

/-- Modelled from the spec: classification of one scalar value. -/
def classOf (c : Nat) : SegKind :=
  if isTranslatable c then SegKind.translatable else SegKind.passthrough

/-- A maximal substring of a run's text with a single classification. -/
structure Segment where
  kind : SegKind
  text : List Nat
deriving DecidableEq

/-- Modelled from the spec: the Script Classifier splits a run's text into an
ordered sequence of maximal same-class segments; adjacent scalar values of
the same class are merged into one segment. -/
def classify : List Nat → List Segment
  | [] => []
  | c :: cs =>
    match classify cs with
    | [] => [⟨classOf c, [c]⟩]
    | s :: ss =>
      if classOf c = s.kind then ⟨s.kind, c :: s.text⟩ :: ss
      else ⟨classOf c, [c]⟩ :: s :: ss

/-- The concatenation of the segment texts in output order. -/
def segConcat (ss : List Segment) : List Nat :=
  (ss.map Segment.text).flatten

/-! ## Upload/transport boundary size limit -/

/-- From next.config.js (src/unnamed/part_001): bodySizeLimit and the API
bodyParser sizeLimit are both "100mb", i.e. 100 * 1024 * 1024 bytes, matching
the README limitation "Maximum file size: 100MB". -/
def bodySizeLimit : Nat := 100 * 1024 * 1024

/-- Modelled from the spec: the /api/translate route handler and the
framework's body-size enforcement are not among the sources.  The
upload/transport boundary receives the raw request body and, before invoking
the core, rejects any body larger than the configured limit.  The request is
abstracted to its byte size; the Bool records whether the core was invoked. -/
def transportBoundary (core : Nat → Except String (List Nat)) (size : Nat) :
    Except String (List Nat) × Bool :=
  if size > bodySizeLimit then
    (Except.error "Request body exceeds the 100mb size limit", false)
  else (core size, true)

/-! ## Inbound document boundary (minimal PDF parse) -/

/-- The PDF header magic bytes, "%PDF". -/
def pdfMagic : List Nat := [37, 80, 68, 70]

/-- Modelled from the spec: reads count length-prefixed content streams,
requiring the byte stream to be fully consumed; none on structural failure. -/
def parseStreams : Nat → List Nat → Option (List (List Nat))
  | 0, [] => some []
  | 0, _ :: _ => none
  | _ + 1, [] => none
  | n + 1, len :: rest =>
    if len ≤ rest.length then
      match parseStreams n (rest.drop len) with
      | some ss => some (rest.take len :: ss)
      | none => none
    else none

/-- Modelled from the spec: the PDF-parsing core is not among the sources.
The inbound document boundary minimally parses the byte stream into a page
list with content streams (here: the header magic, a page-count byte, then
that many length-prefixed streams) and rejects with an InputError, rather
than crashing, any byte stream that does not have this structure. -/
def parsePdf (bytes : List Nat) : Except String (List (List Nat)) :=
  if List.isPrefixOf pdfMagic bytes then
    match bytes.drop pdfMagic.length with
    | [] => Except.error "InputError: missing page list"
    | n :: rest =>
      match parseStreams n rest with
      | some pages => Except.ok pages
      | none => Except.error "InputError: malformed content streams"
  else Except.error "InputError: missing PDF header"

/-- The inbound boundary as the deployed pipeline composes it: the
case-insensitive extension check of route.ts / part_000 followed by the
structural parse of the byte stream. -/
def inboundBoundary (filename : List Char) (bytes : List Nat) :
    Except String (List (List Nat)) :=
  if isPdfName filename then parsePdf bytes
  else Except.error "File must be a PDF"

/-! ## Translation Batcher -/

/-- A translation unit: source run id, segment index, source text. -/
structure TUnit where
  runId : Nat
  segIndex : Nat
  sourceText : List Nat
deriving DecidableEq

/-- A translation result attributed to its originating unit. -/
structure TResult where
  runId : Nat
  segIndex : Nat
  translatedText : List Nat
deriving DecidableEq

/-- A failure record: run id, stage, reason. -/
structure FailureRecord where
  runId : Nat
  stage : String
  reason : String
deriving DecidableEq

/-- Appends a text to the cache key list only when it is not already there. -/
def addUnique (acc : List (List Nat)) (t : List Nat) : List (List Nat) :=
  if t ∈ acc then acc else acc ++ [t]

/-- Modelled from the spec: the Batcher deduplicates units by exact source
text equality, keeping first-occurrence order of the unique texts. -/
def uniqueTexts (us : List TUnit) : List (List Nat) :=
  us.foldl (fun acc u => addUnique acc u.sourceText) []

/-- Looks a source text up in the translation cache. -/
def lookupCache : List (List Nat × List Nat) → List Nat → Option (List Nat)
  | [], _ => none
  | (k, v) :: rest, t => if k = t then some v else lookupCache rest t

/-- Modelled from the spec: the Batcher sends each unique source text to the
translation service exactly once, caches the answers, and fans the results
back out to every originating unit (a cache hit returns without a network
call).  Returns the list of texts sent and the per-unit results. -/
def runBatcher (translate : List Nat → List Nat) (us : List TUnit) :
    List (List Nat) × List TResult :=
  let sent := uniqueTexts us
  let cache := sent.map (fun t => (t, translate t))
  (sent, us.map (fun u =>
    ⟨u.runId, u.segIndex, (lookupCache cache u.sourceText).getD u.sourceText⟩))

/-- Modelled from the spec: one attempt of the translation service on a
batch, numbered so that retries are distinct attempts; none is an error. -/
def retryLoop (svc : Nat → Option (List (List Nat))) :
    Nat → Nat → Option (List (List Nat))
  | attempt, 0 => svc attempt
  | attempt, budget + 1 =>
    match svc attempt with
    | some r => some r
    | none => retryLoop svc (attempt + 1) budget

/-- Modelled from the spec: the Batcher retries a failing batch up to the
retry budget; if the budget is exhausted, every unit in the batch resolves to
its own source text (fail-open) together with a TranslationError failure
record; on success the answers are attributed positionally. -/
def resolveBatch (svc : Nat → Option (List (List Nat))) (budget : Nat)
    (batch : List TUnit) : List TResult × List FailureRecord :=
  match retryLoop svc 0 budget with
  | some texts =>
    (List.zipWith (fun (u : TUnit) t => ⟨u.runId, u.segIndex, t⟩) batch texts, [])
  | none =>
    (batch.map (fun u => ⟨u.runId, u.segIndex, u.sourceText⟩),
     batch.map (fun u => ⟨u.runId, "TranslationError", "retry budget exhausted"⟩))

/-! ## Box Fitter -/

/-- Modelled from the spec: the minimum scale floor, 70 percent of the
original font size. -/
def scaleFloor : Nat := 70

/-- Modelled from the spec: the fixed scale decrement, 5 percent. -/
def scaleStep : Nat := 5

/-- The measured width of a line under a per-character advance function. -/
def lineWidth (f : Nat → Nat) (line : List Nat) : Nat :=
  (line.map f).sum

/-- The advance of a character at a given percent scale: metric times scale.
Box dimensions are compared after multiplying by 100, keeping all arithmetic
in the naturals exact. -/
def scaledCost (cw : Nat → Nat) (scale : Nat) : Nat → Nat :=
  fun c => cw c * scale

/-- Greedy wrap helper: cur is the current line (reversed), curW its width.
Returns none when some single character exceeds the line budget, so that no
produced line can ever be wider than w. -/
def wrapAux (f : Nat → Nat) (w : Nat) (cur : List Nat) (curW : Nat) :
    List Nat → Option (List (List Nat))
  | [] => some [cur.reverse]
  | c :: cs =>
    if w < f c then none
    else if curW + f c ≤ w then wrapAux f w (c :: cur) (curW + f c) cs
    else
      match wrapAux f w [c] (f c) cs with
      | some ls => some (cur.reverse :: ls)
      | none => none

/-- Modelled from the spec: greedily wrap the text into lines that each fit
within the available width, using per-character advance widths. -/
def wrapGreedy (f : Nat → Nat) (w : Nat) : List Nat → Option (List (List Nat))
  | [] => some []
  | c :: cs => if f c ≤ w then wrapAux f w [c] (f c) cs else none

/-- A fitted layout: the wrapped lines, the percent scale factor applied to
the font size, and whether the text had to be truncated. -/
structure FittedLayout where
  lines : List (List Nat)
  scale : Nat
  truncated : Bool
deriving DecidableEq

/-- Modelled from the spec: one fitting attempt at a fixed scale; succeeds
when the wrap fits the width and the stacked line height fits the height. -/
def fitAtScale (cw : Nat → Nat) (fs w h : Nat) (text : List Nat)
    (scale : Nat) : Option (List (List Nat)) :=
  match wrapGreedy (scaledCost cw scale) (w * 100) text with
  | some ls => if ls.length * (fs * scale) ≤ h * 100 then some ls else none
  | none => none

/-- Modelled from the spec: starting at the original size, reduce the scale
factor in fixed decrements and re-wrap until the text fits, down to the
configured floor (the fuel counts the remaining decrements). -/
def tryScales (cw : Nat → Nat) (fs w h : Nat) (text : List Nat) :
    Nat → Nat → Option (Nat × List (List Nat))
  | scale, 0 => (fitAtScale cw fs w h text scale).map (fun ls => (scale, ls))
  | scale, fuel + 1 =>
    match fitAtScale cw fs w h text scale with
    | some ls => some (scale, ls)
    | none => tryScales cw fs w h text (scale - scaleStep) fuel

/-- Truncating wrap used at the floor: keeps the maximal fitting prefix of
each line and drops everything from the first character that cannot fit on a
line of its own. -/
def clampWrap (f : Nat → Nat) (w : Nat) (cur : List Nat) (curW : Nat) :
    List Nat → List (List Nat)
  | [] => [cur.reverse]
  | c :: cs =>
    if w < f c then [cur.reverse]
    else if curW + f c ≤ w then clampWrap f w (c :: cur) (curW + f c) cs
    else cur.reverse :: clampWrap f w [c] (f c) cs

/-- The ellipsis marker scalar value, U+2026. -/
def ellipsisChar : Nat := 0x2026

/-- Appends the ellipsis marker to the last kept line when it still fits. -/
def markEllipsis (f : Nat → Nat) (w : Nat) : List (List Nat) → List (List Nat)
  | [] => []
  | [l] => if lineWidth f l + f ellipsisChar ≤ w then [l ++ [ellipsisChar]] else [l]
  | l :: ls => l :: markEllipsis f w ls

/-- Modelled from the spec: at the floor the text still overflows, so the
last line is truncated with an ellipsis marker and the layout is flagged
truncated; only as many wrapped lines are kept as fit the height. -/
def truncateFit (cw : Nat → Nat) (fs w h : Nat) (text : List Nat) :
    FittedLayout :=
  let f := scaledCost cw scaleFloor
  let kept := (clampWrap f (w * 100) [] 0 text).take ((h * 100) / (fs * scaleFloor))
  ⟨markEllipsis f (w * 100) kept, scaleFloor, true⟩

/-- Modelled from the spec: the Box Fitter.  Tries the original size and then
fixed decrements down to the 70 percent floor (scales 100, 95, ..., 70); if
none fits, degrades to the bounded truncation policy. -/
def fitText (cw : Nat → Nat) (fs w h : Nat) (text : List Nat) : FittedLayout :=
  match tryScales cw fs w h text 100 6 with
  | some (scale, ls) => ⟨ls, scale, false⟩
  | none => truncateFit cw fs w h text

/-! ## Lemmas about the string primitives -/

lemma isPrefixOf_self_append (l t : List Char) :
    List.isPrefixOf l (l ++ t) = true := by
  induction l with
  | nil => simp
  | cons c cs ih => simp [List.isPrefixOf_cons₂, ih]

lemma replaceFirst_no_occ (pat : List Char)
    (s : List Char) (h : containsSub pat s = false) :
    replaceFirst pat s = s := by
  induction s with
  | nil => rfl
  | cons c cs ih =>
    simp only [containsSub, Bool.or_eq_false_iff] at h
    simp only [replaceFirst, h.1, Bool.false_eq_true, if_false]
    rw [ih h.2]

lemma replaceFirst_first_occ (pat : List Char) (hpat : pat ≠ []) :
    ∀ (pre post : List Char),
      (∀ i, i < pre.length →
        List.isPrefixOf pat (List.drop i (pre ++ (pat ++ post))) = false) →
      replaceFirst pat (pre ++ (pat ++ post)) = pre ++ post := by
  intro pre
  induction pre with
  | nil =>
    intro post _
    cases pat with
    | nil => exact absurd rfl hpat
    | cons p pr =>
      simp only [List.nil_append, List.cons_append, replaceFirst,
        List.append_eq]
      rw [show List.isPrefixOf (p :: pr) (p :: (pr ++ post)) = true from
        isPrefixOf_self_append (p :: pr) post]
      simp
  | cons c cs ih =>
    intro post hfirst
    have h0 : List.isPrefixOf pat (c :: (cs ++ (pat ++ post))) = false := by
      have := hfirst 0 (by simp)
      simpa using this
    simp only [List.cons_append, replaceFirst, List.append_eq, h0,
      Bool.false_eq_true, if_false]
    rw [ih post (fun i hi => by
      have := hfirst (i + 1) (by simpa using Nat.succ_lt_succ hi)
      simpa using this)]

/-- C9: for every accepted file, the download name removes only the first
occurrence of the literal, case-sensitive substring ".pdf" from the original
name and appends "_ENGLISH.pdf": a name with no case-sensitive ".pdf"
occurrence is kept whole (so "CATALOGUE.PDF", which passes the
case-insensitive extension check, yields "CATALOGUE.PDF_ENGLISH.pdf"), and a
name whose first ".pdf" occurrence lies before the final extension loses that
inner occurrence instead of the trailing one. -/
theorem c9_download_name (pre post : List Char)
    (hfirst : ∀ i, i < pre.length →
      List.isPrefixOf (String.toList ".pdf")
        (List.drop i (pre ++ (String.toList ".pdf" ++ post))) = false) :
    downloadFileName (pre ++ (String.toList ".pdf" ++ post)) =
      pre ++ post ++ String.toList "_ENGLISH.pdf" ∧
    (∀ s, containsSub (String.toList ".pdf") s = false →
      downloadFileName s = s ++ String.toList "_ENGLISH.pdf") ∧
    isPdfName (String.toList "CATALOGUE.PDF") = true ∧
    downloadFileName (String.toList "CATALOGUE.PDF") =
      String.toList "CATALOGUE.PDF_ENGLISH.pdf" ∧
    downloadFileName (String.toList "report.pdf_v2.pdf") =
      String.toList "report_v2.pdf_ENGLISH.pdf" := by
  refine ⟨?_, ?_, by decide, by decide, by decide⟩
  · unfold downloadFileName
    rw [replaceFirst_first_occ (String.toList ".pdf") (by decide) pre post hfirst]
  · intro s hs
    unfold downloadFileName
    rw [replaceFirst_no_occ (String.toList ".pdf") s hs]

theorem c9_download_name_witness :
    downloadFileName (String.toList "report" ++
        (String.toList ".pdf" ++ String.toList "_v2.pdf")) =
      String.toList "report" ++ String.toList "_v2.pdf" ++
        String.toList "_ENGLISH.pdf" :=
  (c9_download_name (String.toList "report") (String.toList "_v2.pdf")
    (by decide)).1

/-- C10: the POST /api/upload handler always answers with a JSON body: a
missing "file" form entry gives status 400 with error "No file provided"; a
file whose name does not end in ".pdf" case-insensitively gives status 400
with error "File must be a PDF" and the blob upload is not performed; an
accepted file whose upload succeeds gives status 200 with the blob url and
the original file name unchanged; and any thrown exception gives status 500
with a JSON error string. -/
theorem c10_upload_route (put : PutOutcome) (name url : String)
    (e : JsException) :
    uploadPOST (Except.ok none) put =
      (⟨400, ResponseBody.jsonError "No file provided"⟩, false) ∧
    (isPdfName name.toList = false →
      uploadPOST (Except.ok (some name)) put =
        (⟨400, ResponseBody.jsonError "File must be a PDF"⟩, false)) ∧
    (isPdfName name.toList = true →
      uploadPOST (Except.ok (some name)) (PutOutcome.success url) =
        (⟨200, ResponseBody.jsonOk url name⟩, true)) ∧
    uploadPOST (Except.error e) put =
      (⟨500, ResponseBody.jsonError (exnMessage e)⟩, false) ∧
    (isPdfName name.toList = true →
      uploadPOST (Except.ok (some name)) (PutOutcome.failure e) =
        (⟨500, ResponseBody.jsonError (exnMessage e)⟩, true)) := by
  refine ⟨rfl, fun hf => ?_, fun ht => ?_, rfl, fun ht => ?_⟩
  · have hf2 : isPdfName name.data = false := hf
    simp [uploadPOST, hf2]
  · have ht2 : isPdfName name.data = true := ht
    simp [uploadPOST, ht2]
  · have ht2 : isPdfName name.data = true := ht
    simp [uploadPOST, ht2]

theorem c10_upload_route_witness :
    uploadPOST (Except.ok (some "a.txt")) (PutOutcome.success "u") =
      (⟨400, ResponseBody.jsonError "File must be a PDF"⟩, false) ∧
    uploadPOST (Except.ok (some "a.pdf")) (PutOutcome.success "u") =
      (⟨200, ResponseBody.jsonOk "u" "a.pdf"⟩, true) :=
  ⟨(c10_upload_route (PutOutcome.success "u") "a.txt" "u"
      JsException.nonError).2.1 (by decide),
   (c10_upload_route (PutOutcome.success "u") "a.pdf" "u"
      JsException.nonError).2.2.1 (by decide)⟩

/-- C2: on every failing path of the upload route, including thrown
exceptions, the response body is the structured JSON error payload with an
error string, never a raw, empty, or non-JSON body. -/
theorem c2_error_payload (req : Except JsException (Option String))
    (put : PutOutcome) (hfail : (uploadPOST req put).1.status ≠ 200) :
    isErrorPayload (uploadPOST req put).1.body = true := by
  cases req with
  | error e => rfl
  | ok o =>
    cases o with
    | none => rfl
    | some name =>
      cases hp : isPdfName name.data with
      | false => simp [uploadPOST, hp, isErrorPayload]
      | true =>
        cases put with
        | success url => exact absurd (by simp [uploadPOST, hp]) hfail
        | failure e => simp [uploadPOST, hp, isErrorPayload]

theorem c2_error_payload_witness :
    isErrorPayload (uploadPOST (Except.ok none)
      (PutOutcome.success "u")).1.body = true :=
  c2_error_payload (Except.ok none) (PutOutcome.success "u") (by decide)

/-- C4 counterexample: the ideographic full stop U+3002 is CJK-specific
punctuation, hence inside the claim's source-script set, yet the classifier
documented by the repository (range U+4E00-U+9FFF only) classifies it
Passthrough, so the claimed equivalence fails at this scalar value. -/
theorem c4_counterexample :
    claimSourceScript 0x3002 = true ∧ classOf 0x3002 = SegKind.passthrough := by
  decide

/-- C4 amended: in the default configuration a Unicode scalar value is
classified Translatable if and only if it lies in the CJK Unified Ideographs
block U+4E00-U+9FFF; every other scalar value, including CJK punctuation, is
classified Passthrough. -/
theorem c4_amended_range (c : Nat) :
    classOf c = SegKind.translatable ↔ (0x4E00 ≤ c ∧ c ≤ 0x9FFF) := by
  have hiff : isTranslatable c = true ↔ (0x4E00 ≤ c ∧ c ≤ 0x9FFF) := by
    simp [isTranslatable]
  cases hb : isTranslatable c with
  | false =>
    constructor
    · intro h
      simp [classOf, hb] at h
    · intro hr
      have := hiff.mpr hr
      rw [hb] at this
      simp at this
  | true =>
    constructor
    · intro _
      exact hiff.mp hb
    · intro _
      simp [classOf, hb]

/-- C7: classification is a lossless partition: for every run text, the
concatenation of the segment texts produced by the classifier, in output
order, is exactly the original text. -/
theorem c7_lossless_partition (t : List Nat) : segConcat (classify t) = t := by
  induction t with
  | nil => rfl
  | cons c cs ih =>
    simp only [classify]
    cases hcs : classify cs with
    | nil =>
      rw [hcs] at ih
      simp only [segConcat, List.map_nil, List.flatten_nil] at ih
      simp [segConcat, ← ih]
    | cons s ss =>
      rw [hcs] at ih
      simp only [segConcat, List.map_cons, List.flatten_cons] at ih
      by_cases hk : classOf c = s.kind
      · simp only [hk, if_true]
        simp [segConcat, ← ih]
      · simp only [hk, if_false]
        simp [segConcat, ← ih]

/-- C1: the upload/transport boundary enforces the configured maximum input
size (100mb from next.config.js): every request whose body exceeds the limit
is rejected with an error and the core is never invoked. -/
theorem c1_size_limit (core : Nat → Except String (List Nat)) (size : Nat)
    (h : size > bodySizeLimit) :
    (transportBoundary core size).1 =
      Except.error "Request body exceeds the 100mb size limit" ∧
    (transportBoundary core size).2 = false := by
  simp [transportBoundary, h]

theorem c1_size_limit_witness :
    (transportBoundary (fun _ => Except.ok []) (bodySizeLimit + 1)).1 =
      Except.error "Request body exceeds the 100mb size limit" ∧
    (transportBoundary (fun _ => Except.ok []) (bodySizeLimit + 1)).2 = false :=
  c1_size_limit (fun _ => Except.ok []) (bodySizeLimit + 1)
    (Nat.lt_succ_self bodySizeLimit)

/-- C3: the inbound document boundary accepts a PDF byte stream and rejects
with an error, rather than crashing, every input whose structure cannot be
minimally parsed as a PDF; a file with a passing name but unparseable bytes
is rejected and a file with the same name but parseable bytes is accepted,
so acceptance is decided by the byte stream's structure, not merely by the
filename. -/
theorem c3_structural_acceptance :
    (∀ (filename : List Char) (bytes : List Nat) (e : String),
      parsePdf bytes = Except.error e →
      inboundBoundary filename bytes = Except.error e ∨
      inboundBoundary filename bytes = Except.error "File must be a PDF") ∧
    inboundBoundary (String.toList "doc.pdf") [37, 80, 68, 70, 1, 2, 10, 20] =
      Except.ok [[10, 20]] ∧
    inboundBoundary (String.toList "doc.pdf") [0, 1] =
      Except.error "InputError: missing PDF header" := by
  refine ⟨?_, by rfl, by rfl⟩
  intro filename bytes e he
  unfold inboundBoundary
  cases hp : isPdfName filename with
  | false => simp
  | true => simp [he]

theorem c3_structural_acceptance_witness :
    inboundBoundary (String.toList "x.pdf") [9] =
        Except.error "InputError: missing PDF header" ∨
    inboundBoundary (String.toList "x.pdf") [9] =
        Except.error "File must be a PDF" :=
  c3_structural_acceptance.1 (String.toList "x.pdf") [9]
    "InputError: missing PDF header" (by rfl)

/-- C5: fail-open on translation failure: when the translation service fails
on a batch and the retry budget is exhausted, every unit of the batch
resolves to a result whose text is its own original source text (never blank
or missing), and a TranslationError failure record is present for each
unit. -/
theorem c5_fail_open (svc : Nat → Option (List (List Nat))) (budget : Nat)
    (batch : List TUnit) (hexh : retryLoop svc 0 budget = none) :
    (resolveBatch svc budget batch).1 =
      batch.map (fun u => ⟨u.runId, u.segIndex, u.sourceText⟩) ∧
    (resolveBatch svc budget batch).2 =
      batch.map (fun u =>
        ⟨u.runId, "TranslationError", "retry budget exhausted"⟩) := by
  simp [resolveBatch, hexh]

theorem c5_fail_open_witness :
    (resolveBatch (fun _ => none) 2 [⟨7, 0, [20320]⟩]).1 =
      [⟨7, 0, [20320]⟩] ∧
    (resolveBatch (fun _ => none) 2 [⟨7, 0, [20320]⟩]).2 =
      [⟨7, "TranslationError", "retry budget exhausted"⟩] := by
  have h := c5_fail_open (fun _ => none) 2 [⟨7, 0, [20320]⟩] rfl
  exact ⟨h.1.trans (by rfl), h.2.trans (by rfl)⟩

lemma foldl_addUnique_const (s : List Nat) :
    ∀ (us : List TUnit) (acc : List (List Nat)),
      (∀ u ∈ us, u.sourceText = s) → s ∈ acc →
      us.foldl (fun acc u => addUnique acc u.sourceText) acc = acc := by
  intro us
  induction us with
  | nil => intro acc _ _; rfl
  | cons u rest ih =>
    intro acc hall hmem
    have hu : u.sourceText = s := hall u (by simp)
    simp only [List.foldl_cons]
    rw [show addUnique acc u.sourceText = acc from by
      simp [addUnique, hu, hmem]]
    exact ih acc (fun v hv => hall v (by simp [hv])) hmem

/-- C6: deduplication by exact source text: a document whose translatable
source text is the same in every one of its N units sends exactly one unit's
text to the translation service, while N results are delivered, one
attributed to each originating unit by its run id and segment index. -/
theorem c6_dedup (s : List Nat) (f : List Nat → List Nat) (us : List TUnit)
    (hne : us ≠ []) (hall : ∀ u ∈ us, u.sourceText = s) :
    (runBatcher f us).1 = [s] ∧
    (runBatcher f us).2 = us.map (fun u => ⟨u.runId, u.segIndex, f s⟩) := by
  have hsent : uniqueTexts us = [s] := by
    cases us with
    | nil => exact absurd rfl hne
    | cons u rest =>
      have hu : u.sourceText = s := hall u (by simp)
      simp only [uniqueTexts, List.foldl_cons]
      rw [show addUnique [] u.sourceText = [s] from by simp [addUnique, hu]]
      exact foldl_addUnique_const s rest [s]
        (fun v hv => hall v (by simp [hv])) (by simp)
  refine ⟨by simpa [runBatcher] using hsent, ?_⟩
  show (runBatcher f us).2 = _
  simp only [runBatcher, hsent, List.map_cons, List.map_nil]
  apply List.map_congr_left
  intro u hu
  rw [hall u hu]
  simp [lookupCache]

theorem c6_dedup_witness :
    (runBatcher (fun t => t ++ [33])
      [⟨1, 0, [20320]⟩, ⟨2, 0, [20320]⟩, ⟨2, 1, [20320]⟩]).1 = [[20320]] ∧
    (runBatcher (fun t => t ++ [33])
      [⟨1, 0, [20320]⟩, ⟨2, 0, [20320]⟩, ⟨2, 1, [20320]⟩]).2 =
      [⟨1, 0, [20320, 33]⟩, ⟨2, 0, [20320, 33]⟩, ⟨2, 1, [20320, 33]⟩] := by
  have h := c6_dedup [20320] (fun t => t ++ [33])
    [⟨1, 0, [20320]⟩, ⟨2, 0, [20320]⟩, ⟨2, 1, [20320]⟩]
    (by decide) (by decide)
  exact ⟨h.1, h.2.trans (by rfl)⟩

lemma lineWidth_nil (f : Nat → Nat) : lineWidth f [] = 0 := rfl

lemma lineWidth_cons (f : Nat → Nat) (c : Nat) (l : List Nat) :
    lineWidth f (c :: l) = f c + lineWidth f l := by
  simp [lineWidth]

lemma lineWidth_reverse (f : Nat → Nat) (l : List Nat) :
    lineWidth f l.reverse = lineWidth f l := by
  simp [lineWidth, List.map_reverse, List.sum_reverse]

lemma wrapAux_sound (f : Nat → Nat) (w : Nat) :
    ∀ (rest cur : List Nat) (curW : Nat) (ls : List (List Nat)),
      lineWidth f cur = curW → curW ≤ w →
      wrapAux f w cur curW rest = some ls →
      ∀ l ∈ ls, lineWidth f l ≤ w := by
  intro rest
  induction rest with
  | nil =>
    intro cur curW ls hw hle heq l hl
    simp only [wrapAux, Option.some.injEq] at heq
    rw [← heq] at hl
    rcases List.mem_singleton.mp hl with rfl
    rw [lineWidth_reverse, hw]
    exact hle
  | cons c cs ih =>
    intro cur curW ls hw hle heq l hl
    simp only [wrapAux] at heq
    split at heq
    · exact absurd heq (by simp)
    next h1 =>
      split at heq
      next h2 =>
        exact ih (c :: cur) (curW + f c) ls
          (by rw [lineWidth_cons, hw, Nat.add_comm]) h2 heq l hl
      next h2 =>
        cases h3 : wrapAux f w [c] (f c) cs with
        | none => rw [h3] at heq; exact absurd heq (by simp)
        | some ls2 =>
          rw [h3] at heq
          simp only [Option.some.injEq] at heq
          rw [← heq] at hl
          cases hl with
          | head =>
            rw [lineWidth_reverse, hw]
            exact hle
          | tail _ hmem =>
            exact ih [c] (f c) ls2 (by simp [lineWidth])
              (Nat.le_of_not_lt h1) h3 l hmem

lemma wrapGreedy_sound (f : Nat → Nat) (w : Nat) (text : List Nat)
    (ls : List (List Nat)) (heq : wrapGreedy f w text = some ls) :
    ∀ l ∈ ls, lineWidth f l ≤ w := by
  cases text with
  | nil =>
    simp only [wrapGreedy, Option.some.injEq] at heq
    rw [← heq]
    intro l hl
    exact absurd hl (List.not_mem_nil l)
  | cons c cs =>
    simp only [wrapGreedy] at heq
    split at heq
    next h => exact wrapAux_sound f w cs [c] (f c) ls (by simp [lineWidth]) h heq
    next h => exact absurd heq (by simp)

lemma fitAtScale_sound (cw : Nat → Nat) (fs w h scale : Nat) (text : List Nat)
    (ls : List (List Nat)) (heq : fitAtScale cw fs w h text scale = some ls) :
    wrapGreedy (scaledCost cw scale) (w * 100) text = some ls ∧
    ls.length * (fs * scale) ≤ h * 100 := by
  simp only [fitAtScale] at heq
  split at heq
  · rename_i ls2 hh
    split at heq
    · rename_i hlen
      injection heq with heq2
      subst heq2
      exact ⟨hh, hlen⟩
    · exact absurd heq (by simp)
  · exact absurd heq (by simp)

lemma tryScales_sound (cw : Nat → Nat) (fs w h : Nat) (text : List Nat) :
    ∀ (fuel scale sc : Nat) (ls : List (List Nat)),
      tryScales cw fs w h text scale fuel = some (sc, ls) →
      wrapGreedy (scaledCost cw sc) (w * 100) text = some ls ∧
      ls.length * (fs * sc) ≤ h * 100 := by
  intro fuel
  induction fuel with
  | zero =>
    intro scale sc ls heq
    simp only [tryScales] at heq
    cases hf : fitAtScale cw fs w h text scale with
    | none => rw [hf] at heq; exact absurd heq (by simp)
    | some ls2 =>
      rw [hf] at heq
      simp at heq
      obtain ⟨h1, h2⟩ := heq
      subst h1
      subst h2
      exact fitAtScale_sound cw fs w h scale text ls2 hf
  | succ k ih =>
    intro scale sc ls heq
    simp only [tryScales] at heq
    split at heq
    · rename_i ls2 hf
      injection heq with heq2
      injection heq2 with ha hb
      subst ha
      subst hb
      exact fitAtScale_sound cw fs w h scale text ls2 hf
    · rename_i hf
      exact ih (scale - scaleStep) sc ls heq

/-- C8: the Box Fitter never exceeds the bounding box: whenever the produced
layout is not truncated, every line's measured width at the layout's scale
factor is at most the bounding box width, and the stacked line height at that
scale is at most the bounding box height (all widths and heights carry the
factor 100 from the percent scale). -/
theorem c8_box_fitter (cw : Nat → Nat) (fs w h : Nat) (text : List Nat)
    (hnt : (fitText cw fs w h text).truncated = false) :
    (∀ l ∈ (fitText cw fs w h text).lines,
      lineWidth (scaledCost cw (fitText cw fs w h text).scale) l ≤ w * 100) ∧
    (fitText cw fs w h text).lines.length *
      (fs * (fitText cw fs w h text).scale) ≤ h * 100 := by
  cases htr : tryScales cw fs w h text 100 6 with
  | none =>
    exfalso
    simp only [fitText, htr, truncateFit] at hnt
    exact absurd hnt (by simp)
  | some p =>
    obtain ⟨sc, ls⟩ := p
    have hft : fitText cw fs w h text = ⟨ls, sc, false⟩ := by
      simp [fitText, htr]
    rw [hft]
    have hs := tryScales_sound cw fs w h text 6 100 sc ls htr
    exact ⟨fun l hl => wrapGreedy_sound _ _ _ _ hs.1 l hl, hs.2⟩

theorem c8_box_fitter_witness :
    (fitText (fun _ => 10) 10 100 100 [65, 66, 67]).truncated = false ∧
    lineWidth (scaledCost (fun _ => 10)
        (fitText (fun _ => 10) 10 100 100 [65, 66, 67]).scale)
      [65, 66, 67] ≤ 100 * 100 ∧
    (fitText (fun _ => 10) 10 100 100 [65, 66, 67]).lines.length *
      (10 * (fitText (fun _ => 10) 10 100 100 [65, 66, 67]).scale) ≤
        100 * 100 := by
  have hp := c8_box_fitter (fun _ => 10) 10 100 100 [65, 66, 67] (by decide)
  exact ⟨by decide, hp.1 [65, 66, 67] (by decide), hp.2⟩
